import Mathlib

/-!
Verification development for the korean-radio-spotify core
(src/app/radio_scraper.py and src/app/spotify_client.py).

The Python functions are shallowly embedded over `List Char` / `String`.
Each Python regular expression used by the source is embedded as a
dedicated matcher function whose semantics (leftmost, non-overlapping,
with the greedy/lazy behaviour the specific pattern exhibits) is spelled
out where it is defined.  Character classes follow the ASCII/Hangul
ranges the source actually exercises (`\d` is embedded as 0-9, `\s` as
the six ASCII whitespace characters); this is noted where relevant.
Network and HTML-parsing boundaries (requests / BeautifulSoup / the
Spotify client) are modelled as explicit oracles handed to the embedded
functions, with Python exceptions modelled as `Except Unit`.
-/

namespace KoreanRadio

/-! ### Character classes -/

/-- Python `\s` restricted to the ASCII whitespace characters
(space, tab, newline, carriage return, vertical tab, form feed). -/
def isPyWs (c : Char) : Bool :=
  c.toNat = 32 || c.toNat = 9 || c.toNat = 10 || c.toNat = 13 ||
  c.toNat = 11 || c.toNat = 12

/-- Python `\d` restricted to ASCII digits 0-9. -/
def isDigitC (c : Char) : Bool :=
  48 ≤ c.toNat && c.toNat ≤ 57

/-- The regex class `[A-Za-z]`. -/
def isLatinC (c : Char) : Bool :=
  (65 ≤ c.toNat && c.toNat ≤ 90) || (97 ≤ c.toNat && c.toNat ≤ 122)

/-- The regex class `[가-힣]` (Hangul syllables U+AC00 .. U+D7A3). -/
def isKoreanC (c : Char) : Bool :=
  44032 ≤ c.toNat && c.toNat ≤ 55203

/-- Characters written via their code points to keep the source plain. -/
def aposC : Char := Char.ofNat 39
def lparenC : Char := Char.ofNat 40
def rparenC : Char := Char.ofNat 41
def lbrackC : Char := Char.ofNat 91
def rbrackC : Char := Char.ofNat 93
def commaC : Char := Char.ofNat 44
def plusC : Char := Char.ofNat 43
def ampC : Char := Char.ofNat 38
def slashC : Char := Char.ofNat 47
def dotC : Char := Char.ofNat 46
def colonC : Char := Char.ofNat 58
def starC : Char := Char.ofNat 42
def ltC : Char := Char.ofNat 60
def gtC : Char := Char.ofNat 62
def nlC : Char := Char.ofNat 10
def hyphenC : Char := Char.ofNat 45
def semiC : Char := Char.ofNat 59
def hashC : Char := Char.ofNat 35
def enDashC : Char := Char.ofNat 8211
def midDotC : Char := Char.ofNat 183
def lAngleC : Char := Char.ofNat 12298
def rAngleC : Char := Char.ofNat 12299

/-! ### Basic string helpers (Python `str` methods) -/

/-- Python `str.strip()` over the embedded whitespace class. -/
def pyStrip (l : List Char) : List Char :=
  ((l.dropWhile isPyWs).reverse.dropWhile isPyWs).reverse

def pyStripS (s : String) : String :=
  String.mk (pyStrip s.data)

/-- Python `str.rstrip(",")`: drop trailing commas. -/
def rstripComma (l : List Char) : List Char :=
  (l.reverse.dropWhile (fun c => c = commaC)).reverse

/-- `pat` is a prefix of `l`. -/
def isPre : List Char → List Char → Bool
  | [], _ => true
  | _ :: _, [] => false
  | p :: ps, c :: cs => p = c && isPre ps cs

/-- If `pat` (given as a string) is a prefix of `l`, return the rest. -/
def strPre (pat : String) (l : List Char) : Option (List Char) :=
  if isPre pat.data l then some (l.drop pat.data.length) else none

/-- Case-insensitive prefix (via `Char.toLower`, matching Python
`re.IGNORECASE` on the ASCII alternatives the source uses). -/
def ciPre (pat : List Char) (l : List Char) : Option (List Char) :=
  match pat, l with
  | [], _ => some l
  | _ :: _, [] => none
  | p :: ps, c :: cs => if p.toLower = c.toLower then ciPre ps cs else none

/-- Python substring test `pat in l`. -/
def containsL (pat : List Char) : List Char → Bool
  | [] => pat.isEmpty
  | c :: rest => isPre pat (c :: rest) || containsL pat rest

def containsS (pat s : String) : Bool :=
  containsL pat.data s.data

/-! ### Generic regex-substitution engines

A matcher `m : List Char → Option Nat` attempts a match anchored at the
head of its argument; `some k` means the match spans `k + 1` characters
(every pattern the source substitutes on matches at least one
character).  `subAux` realises `re.sub` (leftmost, non-overlapping),
`cutAux` realises `re.split(pat, s)[0]` via a boolean match test, and
`hasMatchAux` realises `re.search` used as a boolean. -/

/-- Scanner for `re.sub`: the `skip` counter consumes the remaining
characters of a match that has already been replaced, keeping the
recursion structural on the character list. -/
def subGo (m : List Char → Option Nat) (repl : List Char) :
    Nat → List Char → List Char
  | _, [] => []
  | skip + 1, _ :: rest => subGo m repl skip rest
  | 0, c :: rest =>
    match m (c :: rest) with
    | some k => repl ++ subGo m repl k rest
    | none => c :: subGo m repl 0 rest

def subAux (m : List Char → Option Nat) (repl : List Char)
    (l : List Char) : List Char :=
  subGo m repl 0 l

def cutAux (t : List Char → Bool) : List Char → List Char
  | [] => []
  | c :: rest => if t (c :: rest) then [] else c :: cutAux t rest

def hasMatchAux (m : List Char → Option Nat) : List Char → Bool
  | [] => false
  | c :: rest => (m (c :: rest)).isSome || hasMatchAux m rest

/-! ### Matchers for the patterns of src/app/spotify_client.py -/

/-- `\[[^\]]*(?:신청곡|사연)[^\]]*\]\s*` (clean_title step 1).
A match anchored at a literal `[` runs to the first `]` after it
(the two `[^\]]*` runs cannot cross a `]`), requires `신청곡` or `사연`
between the brackets, and greedily absorbs trailing whitespace. -/
def bracketReqM (l : List Char) : Option Nat :=
  match l with
  | c :: rest =>
    if c = lbrackC then
      let inner := rest.takeWhile (fun d => d ≠ rbrackC)
      match rest.drop inner.length with
      | d :: after =>
        if d = rbrackC &&
            (containsL "신청곡".data inner || containsL "사연".data inner) then
          some (inner.length + 1 + (after.takeWhile isPyWs).length)
        else none
      | [] => none
    else none
  | [] => none

/-- Match test for `\s*\+\s+` (clean_title step 2): optional whitespace,
a `+`, then at least one whitespace character. -/
def plusT (l : List Char) : Bool :=
  match l.dropWhile isPyWs with
  | c :: d :: _ => c = plusC && isPyWs d
  | _ => false

/-- Match test for `\s*&\s+\d+번` (clean_title step 2b). -/
def ampNumT (l : List Char) : Bool :=
  match l.dropWhile isPyWs with
  | c :: rest =>
    c = ampC &&
      (match rest with
       | d :: _ =>
         isPyWs d &&
           (let r2 := rest.dropWhile isPyWs
            let ds := r2.takeWhile isDigitC
            !ds.isEmpty && (strPre "번" (r2.drop ds.length)).isSome)
       | [] => false)
  | [] => false

/-- Tail of the OST pattern after the closing `>`/`》`:
`\s*OST\s*[-–:]\s*(.+)` — returns the stripped capture
(`ost_match.group(1).strip()` in the source). -/
def ostTail (l : List Char) : Option (List Char) :=
  match strPre "OST" (l.dropWhile isPyWs) with
  | some l2 =>
    match l2.dropWhile isPyWs with
    | d :: l4 =>
      if d = hyphenC || d = enDashC || d = colonC then
        if l4.isEmpty then none else some (pyStrip l4)
      else none
    | [] => none
  | none => none

/-- Lazy scan for the closing bracket of `[<《].*?[>》]` followed by the
OST tail: candidate closes are tried left to right, extending the lazy
`.*?` past a close whose continuation fails. -/
def ostScan : List Char → Option (List Char)
  | [] => none
  | c :: rest =>
    if c = gtC || c = rAngleC then
      match ostTail rest with
      | some t => some t
      | none => ostScan rest
    else ostScan rest

/-- `re.match(r"영화\s*[<《].*?[>》]\s*OST\s*[-–:]\s*(.+)", title)`
(clean_title step 3): on success returns the stripped title. -/
def ostMatch (l : List Char) : Option (List Char) :=
  match strPre "영화" l with
  | some r1 =>
    match r1.dropWhile isPyWs with
    | c :: r2 => if c = ltC || c = lAngleC then ostScan r2 else none
    | [] => none
  | none => none

/-- The class `[A-Za-z.\s]` of the composer head. -/
def isCompClassC (c : Char) : Bool :=
  isLatinC c || c = dotC || isPyWs c

/-- `re.match(r"^([A-Za-z][A-Za-z.\s]+?)\s*/\s*(.+)$", title)`
(clean_title step 4).  The lazy head group together with the greedy
`\s*` forces: a Latin first character, a run of `[A-Za-z.\s]` whose
first non-class character is the `/`, at least two characters before
the `/`, and a non-empty remainder after it.  Returns
(stripped composer, stripped title) as the source immediately strips
both groups. -/
def composerSplit (l : List Char) : Option (List Char × List Char) :=
  match l with
  | c :: rest =>
    if isLatinC c then
      let run := rest.takeWhile isCompClassC
      let q := 1 + run.length
      match l.drop q with
      | d :: rest2 =>
        if d = slashC && 2 ≤ q && !rest2.isEmpty then
          some (pyStrip (l.take q), pyStrip rest2)
        else none
      | [] => none
    else none
  | [] => none

/-- `\s*중\s+\d+악장\s*` (clean_title step 5), substituted by a space. -/
def movementM (l : List Char) : Option Nat :=
  let w1 := l.takeWhile isPyWs
  match strPre "중" (l.drop w1.length) with
  | some l2 =>
    let w2 := l2.takeWhile isPyWs
    if w2.isEmpty then none
    else
      let l3 := l2.drop w2.length
      let ds := l3.takeWhile isDigitC
      if ds.isEmpty then none
      else
        match strPre "악장" (l3.drop ds.length) with
        | some l4 =>
          some (w1.length + 1 + w2.length + ds.length + 2 +
                (l4.takeWhile isPyWs).length - 1)
        | none => none
  | none => none

/-- The class `[A-Za-z\s',\-\.&:]` inside the Western-run parenthesis. -/
def isWestClassC (c : Char) : Bool :=
  isLatinC c || isPyWs c || c = aposC || c = commaC || c = hyphenC ||
  c = dotC || c = ampC || c = colonC

/-- `re.search(r"\(([A-Za-z][A-Za-z\s',\-\.&:]+)\)", title)`
(clean_title step 6): first `(` holding a Latin letter plus at least one
more class character, closed by `)`; returns the stripped capture. -/
def westernSearch : List Char → Option (List Char)
  | [] => none
  | c :: rest =>
    if c = lparenC then
      match rest with
      | d :: r2 =>
        if isLatinC d then
          let run := r2.takeWhile isWestClassC
          if run.isEmpty then westernSearch rest
          else
            match r2.drop run.length with
            | e :: _ =>
              if e = rparenC then some (pyStrip (d :: run))
              else westernSearch rest
            | [] => westernSearch rest
        else westernSearch rest
      | [] => none
    else westernSearch rest

/-- The class `[가-힣\s,·]` of the Korean-parenthetical pattern. -/
def isKorParClassC (c : Char) : Bool :=
  isKoreanC c || isPyWs c || c = commaC || c = midDotC

/-- `\([가-힣\s,·]+\)` (clean_title step 7), removed. -/
def parenKorM (l : List Char) : Option Nat :=
  match l with
  | c :: rest =>
    if c = lparenC then
      let run := rest.takeWhile isKorParClassC
      if run.isEmpty then none
      else
        match rest.drop run.length with
        | d :: _ => if d = rparenC then some (run.length + 1) else none
        | [] => none
    else none
  | [] => none

/-- `\d+번` (clean_title step 8a), removed. -/
def numBeonM (l : List Char) : Option Nat :=
  match l with
  | c :: _ =>
    if isDigitC c then
      let ds := l.takeWhile isDigitC
      if (strPre "번" (l.drop ds.length)).isSome then some ds.length
      else none
    else none
  | [] => none

/-- `[가-힣]+` (clean_title step 8b), substituted by a space. -/
def korRunM (l : List Char) : Option Nat :=
  match l with
  | c :: rest =>
    if isKoreanC c then some (rest.takeWhile isKoreanC).length else none
  | [] => none

/-- `\s+` (clean_title step 9a), substituted by a single space. -/
def wsRunM (l : List Char) : Option Nat :=
  match l with
  | c :: rest =>
    if isPyWs c then some (rest.takeWhile isPyWs).length else none
  | [] => none

/-- `re.sub(r"^[\s,&]+|[\s,&]+$", "", title)` (clean_title step 9b):
the anchored alternation only ever removes a leading and a trailing run
of the class, so it is embedded as the two corresponding drops. -/
def isEdgeClassC (c : Char) : Bool :=
  isPyWs c || c = commaC || c = ampC

def edgeStrip (l : List Char) : List Char :=
  ((l.dropWhile isEdgeClassC).reverse.dropWhile isEdgeClassC).reverse

def hasKoreanB (l : List Char) : Bool := l.any isKoreanC
def hasLatinB (l : List Char) : Bool := l.any isLatinC

/-! ### clean_title (src/app/spotify_client.py lines 71-140) -/

/-- Embedding of `clean_title`.  The numbered lets follow the numbered
steps of the source; `has_korean` is recomputed before step 8 exactly as
the source does (the `has_korean = False` store inside step 6 is dead). -/
def cleanTitle (title : String) : String × Option String :=
  let t0 := title.data
  -- 1. remove request-code bracket prefixes
  let t1 := subAux bracketReqM [] t0
  -- 2. cut at " + " and at "& <digits>번"
  let t2 := pyStrip (cutAux plusT t1)
  let t2b := pyStrip (cutAux ampNumT t2)
  -- 3. unwrap the OST pattern
  let t3 := match ostMatch t2b with
    | some r => r
    | none => t2b
  -- 4. split out "<Composer> / <Title>"
  let cm := composerSplit t3
  let composer : Option String := cm.map (fun p => String.mk p.1)
  let t4 := match cm with
    | some p => p.2
    | none => t3
  -- 5. strip Korean movement markers
  let t5 := subAux movementM [Char.ofNat 32] t4
  -- 6. prefer a parenthetical Western run when Korean is present
  let t6 := if hasKoreanB t5 then
      match westernSearch t5 with
      | some g => g
      | none => t5
    else t5
  -- 7. drop Korean-only parentheticals
  let t7 := subAux parenKorM [] t6
  -- 8. for mixed Korean/Latin text drop Korean numerals and runs
  let t8 := if hasKoreanB t7 && hasLatinB t7 then
      subAux korRunM [Char.ofNat 32] (subAux numBeonM [] t7)
    else t7
  -- 9. collapse whitespace, strip, drop stray edge punctuation
  let t9 := pyStrip (subAux wsRunM [Char.ofNat 32] t8)
  let t10 := edgeStrip t9
  (String.mk t10, composer)

/-! ### Matchers for clean_artist_name (src/app/spotify_client.py 29-68) -/

/-- The ordered alternation of instrument/role markers shared by
`clean_artist_name` (line 49) and `inst_re` of the board parser
(radio_scraper.py line 227). -/
def instAlts : List String :=
  ["pf", "vn", "vc", "gt", "bar", "sop", "ten", "bass", "fl", "ob",
   "cl", "hrn", "perc", "org", "hp", "voc&e-vn", "e-vn", "voc",
   "trombone", "trumpet", "tuba", "cello", "violin", "piano",
   "soprano", "baroque harp", "viola da gamba", "nyckelharpa",
   "accordion", "pf&지휘", "지휘"]

/-- Anchored, case-insensitive match of `^(alt1|...|altN):\s*` trying the
alternatives in order as the regex engine does; returns the matched
length including the colon and the greedy trailing whitespace. -/
def instMGo (l : List Char) : List String → Option Nat
  | [] => none
  | a :: as =>
    match ciPre a.data l with
    | some r =>
      (match r with
       | c :: r2 =>
         if c = colonC then
           some (a.data.length + 1 + (r2.takeWhile isPyWs).length)
         else instMGo l as
       | [] => instMGo l as)
    | none => instMGo l as

def instM (l : List Char) : Option Nat :=
  instMGo l instAlts

/-- Match test for `,\s*(?:pf|vn|vc|trombone|piano|gt|지휘):`
(clean_artist_name line 60 — note: case-sensitive, no IGNORECASE). -/
def commaInstT (l : List Char) : Bool :=
  match l with
  | c :: r =>
    c = commaC &&
      (let r1 := r.dropWhile isPyWs
       ["pf", "vn", "vc", "trombone", "piano", "gt", "지휘"].any
         (fun a =>
           match strPre a r1 with
           | some r2 => (strPre ":" r2).isSome
           | none => false))
  | [] => false

/-- `\s*\([^)]*\)\s*` (clean_artist_name line 65), replaced by a space. -/
def parenArtM (l : List Char) : Option Nat :=
  let w1 := l.takeWhile isPyWs
  match l.drop w1.length with
  | c :: rest =>
    if c = lparenC then
      let inner := rest.takeWhile (fun d => d ≠ rparenC)
      match rest.drop inner.length with
      | d :: after =>
        if d = rparenC then
          some (w1.length + 1 + inner.length + 1 +
                (after.takeWhile isPyWs).length - 1)
        else none
      | [] => none
    else none
  | [] => none

/-- Match test for `\s+feat\.?\s+` with IGNORECASE
(clean_artist_name line 66). -/
def featT (l : List Char) : Bool :=
  match l with
  | c :: _ =>
    isPyWs c &&
      (let l1 := l.dropWhile isPyWs
       match ciPre "feat".data l1 with
       | some r =>
         (match r with
          | d :: r2 =>
            if d = dotC then
              match r2 with
              | e :: _ => isPyWs e
              | [] => false
            else isPyWs d
          | [] => false)
       | none => false)
  | [] => false

/-- Match test for `\s+of\s+` with IGNORECASE
(clean_artist_name line 67). -/
def ofT (l : List Char) : Bool :=
  match l with
  | c :: _ =>
    isPyWs c &&
      (let l1 := l.dropWhile isPyWs
       match ciPre "of".data l1 with
       | some r =>
         (match r with
          | d :: _ => isPyWs d
          | [] => false)
       | none => false)
  | [] => false

/-- Lines 62-64 of clean_artist_name: split on the first comma; if the
remainder contains Hangul while the head contains Latin, keep the
stripped head. -/
def commaKoreanRule (l : List Char) : List Char :=
  let head := l.takeWhile (fun c => c ≠ commaC)
  match l.drop head.length with
  | _ :: rest =>
    if hasKoreanB rest && hasLatinB head then pyStrip head else l
  | [] => l

/-- Embedding of `clean_artist_name` (src/app/spotify_client.py 29-68). -/
def cleanArtistName (artist : String) : String :=
  let a0 := artist.data
  -- remove an instrument/role prefix (anchored sub removes one match)
  let a1 := match instM a0 with
    | some n => a0.drop n
    | none => a0
  -- split away a secondary performer with an instrument prefix
  let a2 := pyStrip (cutAux commaInstT a1)
  -- drop an orchestra/ensemble clause after a comma
  let a3 := commaKoreanRule a2
  -- replace parentheticals by a space
  let a4 := subAux parenArtM [Char.ofNat 32] a3
  -- truncate at " feat " / " of "
  let a5 := cutAux featT a4
  let a6 := cutAux ofT a5
  String.mk (pyStrip a6)

/-! ### Board text parser (src/app/radio_scraper.py lines 202-334) -/

/-- A raw song entry: `{"title": ..., "artist": ...}`. -/
structure Song where
  title : String
  artist : String
deriving DecidableEq

/-- `dur_re = \d+'\d+` anchored at the head: greedy digits, an
apostrophe, greedy digits. -/
def durM (l : List Char) : Option Nat :=
  match l with
  | c :: _ =>
    if isDigitC c then
      let d1 := l.takeWhile isDigitC
      match l.drop d1.length with
      | a :: r2 =>
        if a = aposC then
          let d2 := r2.takeWhile isDigitC
          if d2.isEmpty then none else some (d1.length + d2.length)
        else none
      | [] => none
    else none
  | [] => none

/-- `dur_re.search` as a boolean. -/
def hasDur (l : List Char) : Bool := hasMatchAux durM l

/-- `dur_re.sub("", l)`. -/
def durSub (l : List Char) : List Char := subAux durM [] l

/-- `num_re = ^(\d+)\.\s*(.+)` via `.match`: digits, a dot, then the
greedy `\s*(.+)` capture.  When the remainder after the dot is empty the
regex fails; when it is all whitespace, backtracking leaves a single
whitespace character in the capture (which every caller strips). -/
def numMatch (l : List Char) : Option (List Char) :=
  let ds := l.takeWhile isDigitC
  if ds.isEmpty then none
  else
    match l.drop ds.length with
    | c :: rest =>
      if c = dotC then
        match rest with
        | [] => none
        | _ :: _ =>
          let r := rest.dropWhile isPyWs
          if r.isEmpty then some [rest.getLastD (Char.ofNat 32)]
          else some r
      else none
    | [] => none

/-- The decorative banner lines of the parser (line 234). -/
def skipWords : List String :=
  ["뮤직 인사이드", "세상의 모든 음악 Logo", "저녁에 쉼표"]

def skipAny (l : List Char) : Bool :=
  skipWords.any (fun w => containsL w.data l)

/-- Match test for `,\s*지휘:` (the conductor-suffix split, lines 270,
316, 328). -/
def conductorT (l : List Char) : Bool :=
  match l with
  | c :: r =>
    c = commaC && (strPre "지휘:" (r.dropWhile isPyWs)).isSome
  | [] => false

/-- `re.split(r",\s*지휘:", a)[0].strip().rstrip(",")`. -/
def conductorCut (a : List Char) : List Char :=
  rstripComma (pyStrip (cutAux conductorT a))

/-- `inst_re.match(artist_line)` followed by slicing off the match and
stripping, else stripping the whole line; then the conductor cut
(lines 311-316 and 323-328). -/
def extractArtist (line : List Char) : List Char :=
  let a := match instM line with
    | some n => pyStrip (line.drop n)
    | none => pyStrip line
  conductorCut a

/-- A block line is a "pure duration line" when removing all duration
substrings, every `/` and every space, then stripping, leaves nothing
(lines 288-293). -/
def isPureDurLine (bl : List Char) : Bool :=
  hasDur bl &&
    (pyStrip ((durSub bl).filter
      (fun c => c ≠ slashC && c.toNat ≠ 32))).isEmpty

/-- Index of the LAST pure-duration line of the block (lines 287-293). -/
def findLastPure (block : List (List Char)) : Option Nat :=
  (block.enum.reverse.find? (fun p => isPureDurLine p.2)).map (fun p => p.1)

/-- Walk backward from `d - 1`, skipping note lines that start with `*`,
to the nearest artist line (lines 298-301); `none` models
`artist_idx < 0`. -/
def walkBack (block : List (List Char)) (d : Nat) : Option Nat :=
  ((block.take d).enum.reverse.find?
    (fun p => !(isPre [starC] p.2))).map (fun p => p.1)

def startsPlus (l : List Char) : Bool := isPre [plusC] l

/-- `" ".join(title_parts)`. -/
def joinSpace (parts : List (List Char)) : List Char :=
  (parts.intersperse [Char.ofNat 32]).flatten

/-- Resolve one numbered entry given its (stripped) title text and its
cleaned block (lines 263-332).  Returns zero or one songs. -/
def boardEntrySong (firstTitle : List Char) (block : List (List Char)) :
    List Song :=
  if hasDur firstTitle then
    -- Case 1: inline duration.  `inst_re.search` can only match at
    -- index 0 because the pattern is anchored with `^`, so
    -- `first_title[:inst_m.start()]` is always the empty string.
    match instM firstTitle with
    | some n =>
      let songTitle := pyStrip (firstTitle.take 0)
      let rest := firstTitle.drop n
      let artist := conductorCut (pyStrip (durSub rest))
      if songTitle.isEmpty then [] else [⟨String.mk songTitle, String.mk artist⟩]
    | none =>
      let songTitle := pyStrip (durSub firstTitle)
      if songTitle.isEmpty then [] else [⟨String.mk songTitle, ""⟩]
  else
    -- Case 2: block-separated format.
    match block with
    | [] => [⟨String.mk firstTitle, ""⟩]
    | b0 :: _ =>
      let finish := fun (parts : List (List Char)) (artist : List Char) =>
        let title := joinSpace parts
        if title.isEmpty then ([] : List Song)
        else [⟨String.mk title, String.mk artist⟩]
      match findLastPure block with
      | some d =>
        if 0 < d then
          match walkBack block d with
          | some ai =>
            let artistLine := block.getD ai []
            let parts := firstTitle ::
              ((block.take ai).filter (fun b => !startsPlus b))
            finish parts (extractArtist artistLine)
          | none => finish [firstTitle] []
        else finish [firstTitle] []
      | none => finish [firstTitle] (extractArtist b0)

/-- Pass 1 (lines 236-243): find the numbered entries.  A banner line
that is not itself numbered is skipped; every line matching `num_re`
records `(index, group(2).strip())`. -/
def boardEntries (lines : List (List Char)) : List (Nat × List Char) :=
  lines.enum.filterMap (fun p =>
    if skipAny p.2 && (numMatch p.2).isNone then none
    else
      match numMatch p.2 with
      | some g2 => some (p.1, pyStrip g2)
      | none => none)

/-- Pass 2 (lines 246-261): the block of an entry is the stripped,
non-empty, non-banner lines strictly between it and the next entry. -/
def entryBlock (lines : List (List Char)) (startIdx endIdx : Nat) :
    List (List Char) :=
  (((lines.drop (startIdx + 1)).take (endIdx - (startIdx + 1))).map pyStrip).filter
    (fun bl => !bl.isEmpty && !skipAny bl)

def boardEntryLoop (lines : List (List Char)) :
    List (Nat × List Char) → List Song
  | [] => []
  | (startIdx, firstTitle) :: rest =>
    let endIdx := match rest with
      | (n, _) :: _ => n
      | [] => lines.length
    boardEntrySong firstTitle (entryBlock lines startIdx endIdx) ++
      boardEntryLoop lines rest

/-- Embedding of `_parse_kbs_board_songs` (lines 202-334). -/
def parseKbsBoardSongs (lines : List String) : List Song :=
  let ls := lines.map String.data
  boardEntryLoop ls (boardEntries ls)

/-! ### MBC adapter (src/app/radio_scraper.py lines 36-84)

The HTTP transport together with BeautifulSoup is modelled as an
oracle: `page code p` is the parsed row list of
`https://miniweb.imbc.com/Music?page={p}&progCode={code}` (each row
giving its `td` texts and the `href` of its first `a` tag, `none` when
the row has no link), and `detail code seqId` is the parsed detail
table of the view URL.  `Except.error` models a raised transport/parse
exception (`raise_for_status`, connection errors, malformed markup). -/

structure MbcRow where
  cells : List String
  link : Option String
deriving DecidableEq

structure MbcEnv where
  page : String → Nat → Except Unit (List MbcRow)
  detail : String → String → Except Unit (List (List String))

/-- `re.search(r"seqID=(\d+)", href)`: the first occurrence of
`seqID=` followed by at least one digit; the capture is the maximal
digit run. -/
def seqSearch : List Char → Option (List Char)
  | [] => none
  | c :: rest =>
    match strPre "seqID=" (c :: rest) with
    | some r =>
      let ds := r.takeWhile isDigitC
      if ds.isEmpty then seqSearch rest else some ds
    | none => seqSearch rest

/-- Lines 72-78: keep detail rows with at least three cells and
non-empty stripped title (cell 1) and artist (cell 2). -/
def mbcDetailSongs (rows : List (List String)) : List Song :=
  rows.filterMap (fun c =>
    if 3 ≤ c.length then
      let t := pyStripS (c.getD 1 "")
      let a := pyStripS (c.getD 2 "")
      if t ≠ "" && a ≠ "" then some ⟨t, a⟩ else none
    else none)

/-- Line 60: `cells and date_str in cells[0].text.strip()`. -/
def mbcRowMatches (dateStr : String) (r : MbcRow) : Bool :=
  match r.cells with
  | [] => false
  | c0 :: _ => containsL dateStr.data (pyStrip c0.data)

/-- Lines 61-80: what the function does with the first matching row:
follow the link when it exists and carries a `seqID`, otherwise return
"not found". -/
def mbcHandleRow (env : MbcEnv) (code : String) (r : MbcRow) :
    Except Unit (Option (List Song)) :=
  match r.link with
  | some href =>
    match seqSearch href.data with
    | some sid =>
      match env.detail code (String.mk sid) with
      | .error e => .error e
      | .ok rows =>
        let songs := mbcDetailSongs rows
        .ok (if songs.isEmpty then none else some songs)
    | none => .ok none
  | none => .ok none

/-- Row loop of one page, instrumented with the list of rows the loop
examined.  `none` in the first component means no row of the page
matched and the page loop continues. -/
def mbcScanT (env : MbcEnv) (code dateStr : String) :
    List MbcRow → Option (Except Unit (Option (List Song))) × List MbcRow
  | [] => (none, [])
  | r :: rs =>
    if mbcRowMatches dateStr r then (some (mbcHandleRow env code r), [r])
    else
      let p := mbcScanT env code dateStr rs
      (p.1, r :: p.2)

/-- Page loop (lines 51-81) over the page numbers `range(1, 5)`,
instrumented with the rows examined across pages. -/
def mbcPagesT (env : MbcEnv) (code dateStr : String) :
    List Nat → Except Unit (Option (List Song)) × List MbcRow
  | [] => (.ok none, [])
  | p :: ps =>
    match env.page code p with
    | .error e => (.error e, [])
    | .ok rows =>
      match mbcScanT env code dateStr rows with
      | (some res, tr) => (res, tr)
      | (none, tr) =>
        let q := mbcPagesT env code dateStr ps
        (q.1, tr ++ q.2)

/-- The body of `fetch_mbc_songs` inside its `try` (lines 51-81). -/
def mbcBody (env : MbcEnv) (code dateStr : String) :
    Except Unit (Option (List Song)) :=
  (mbcPagesT env code dateStr [1, 2, 3, 4]).1

/-- The rows `fetch_mbc_songs` examines. -/
def mbcTrace (env : MbcEnv) (code dateStr : String) : List MbcRow :=
  (mbcPagesT env code dateStr [1, 2, 3, 4]).2

/-- The catch-all `except Exception` of every adapter (lines 82-84,
122-124, 197-199): a raised exception becomes "not found". -/
def pyCatch (r : Except Unit (Option (List Song))) : Option (List Song) :=
  match r with
  | .ok v => v
  | .error _ => none

/-- Embedding of `fetch_mbc_songs` (lines 36-84); the `date_str=None`
default (today) is the caller's concern and the date is passed
explicitly. -/
def fetchMbcSongs (env : MbcEnv) (code dateStr : String) :
    Option (List Song) :=
  pyCatch (mbcBody env code dateStr)

/-! ### KBS KONG adapter (lines 87-124) -/

structure KbsItem where
  song_title : String
  artist : String
deriving DecidableEq

/-- Oracle for the KONG API call: the `items` array of the JSON
response for (program code, date), `.error` a raised exception. -/
structure KbsEnv where
  resp : String → String → Except Unit (List KbsItem)

/-- Embedding of `fetch_kbs_songs` (lines 87-124). -/
def fetchKbsSongs (env : KbsEnv) (code dateStr : String) :
    Option (List Song) :=
  match env.resp code dateStr with
  | .error _ => none
  | .ok items =>
    let songs := items.filterMap (fun it =>
      let t := pyStripS it.song_title
      let a := pyStripS it.artist
      if t ≠ "" && a ≠ "" then some (⟨t, a⟩ : Song) else none)
    if songs.isEmpty then none else some songs

/-! ### KBS board adapter (lines 127-199) -/

structure BoardPost where
  post_title : String
  postId : String
  post_no : String
deriving DecidableEq

/-- Oracle for the two board API calls: `listPosts bbsId` is the `data`
array of the list response, `readPost` the `post.post_contents` string
of the read response (already `""` when the JSON lacks the field). -/
structure BoardEnv where
  listPosts : String → Except Unit (List BoardPost)
  readPost : BoardPost → Except Unit String

/-- Python `int(s)` restricted to the unsigned decimal strings the date
parts contain: surrounding whitespace then digits; anything else is a
raised `ValueError`. -/
def pyInt (s : String) : Option Nat :=
  let t := pyStrip s.data
  if !t.isEmpty && t.all isDigitC then
    some (t.foldl (fun acc c => 10 * acc + (c.toNat - 48)) 0)
  else none

/-- `</div>` case-insensitively (line 188), replaced by a newline. -/
def divCloseM (l : List Char) : Option Nat :=
  match ciPre "</div>".data l with
  | some _ => some 5
  | none => none

/-- `<br\s*/?>` case-insensitively (line 189), replaced by a newline. -/
def brM (l : List Char) : Option Nat :=
  match ciPre "<br".data l with
  | some r =>
    let w := r.takeWhile isPyWs
    let r2 := r.drop w.length
    match r2 with
    | c :: r3 =>
      if c = gtC then some (3 + w.length - 1)
      else if c = slashC then
        match r3 with
        | d :: _ => if d = gtC then some (3 + w.length + 2 - 1) else none
        | [] => none
      else none
    | [] => none
  | none => none

/-- `<[^>]+>` (line 190), removed. -/
def tagM (l : List Char) : Option Nat :=
  match l with
  | c :: rest =>
    if c = ltC then
      let inner := rest.takeWhile (fun d => d ≠ gtC)
      if inner.isEmpty then none
      else
        match rest.drop inner.length with
        | d :: _ => if d = gtC then some (inner.length + 1) else none
        | [] => none
    else none
  | [] => none

/-- Model of Python `html.unescape` restricted to the five XML entities
plus `&nbsp;` and numeric character references; the full translation
table is far larger, and no claim depends on it. -/
def hexVal (c : Char) : Option Nat :=
  if isDigitC c then some (c.toNat - 48)
  else if 97 ≤ c.toLower.toNat && c.toLower.toNat ≤ 102 then
    some (c.toLower.toNat - 87)
  else none

def namedEntities : List (String × Char) :=
  [("amp;", ampC), ("lt;", ltC), ("gt;", gtC),
   ("quot;", Char.ofNat 34), ("apos;", aposC), ("nbsp;", Char.ofNat 160)]

def findEntity (rest : List Char) : Option (Char × Nat) :=
  (namedEntities.find? (fun e => isPre e.1.data rest)).map
    (fun e => (e.2, e.1.data.length))

/-- A numeric character reference `#<digits>;` right after the `&`:
returns the decoded character and the consumed length. -/
def numEntity (rest : List Char) : Option (Char × Nat) :=
  match rest with
  | d :: r2 =>
    if d = hashC then
      let ds := r2.takeWhile isDigitC
      if ds.isEmpty then none
      else
        match r2.drop ds.length with
        | e :: _ =>
          if e = semiC then
            some (Char.ofNat (ds.foldl
              (fun acc x => 10 * acc + (x.toNat - 48)) 0),
              1 + ds.length + 1)
          else none
        | [] => none
    else none
  | [] => none

def unescGo : Nat → List Char → List Char
  | _, [] => []
  | skip + 1, _ :: rest => unescGo skip rest
  | 0, c :: rest =>
    if c = ampC then
      match findEntity rest with
      | some (ch, n) => ch :: unescGo n rest
      | none =>
        match numEntity rest with
        | some (ch, n) => ch :: unescGo n rest
        | none => c :: unescGo 0 rest
    else c :: unescGo 0 rest

def unescapeL (l : List Char) : List Char :=
  unescGo 0 l

/-- Lines 188-192: HTML body to stripped, non-empty text lines. -/
def htmlToLines (s : String) : List String :=
  let t1 := subAux divCloseM [nlC] s.data
  let t2 := subAux brM [nlC] t1
  let t3 := subAux tagM [] t2
  let t4 := unescapeL t3
  (((String.mk t4).splitOn "\n").map pyStripS).filter (fun l => l ≠ "")

/-- The body of `fetch_kbs_board_songs` inside its `try`
(lines 142-196). -/
def boardBody (env : BoardEnv) (bbsId dateStr : String) :
    Except Unit (Option (List Song)) :=
  match env.listPosts bbsId with
  | .error e => .error e
  | .ok posts =>
    let parts := dateStr.splitOn "-"
    -- `parts[1]`, `parts[2]`, `int(...)` raise on a malformed date
    if parts.length < 3 then .error ()
    else
      match pyInt (parts.getD 1 ""), pyInt (parts.getD 2 "") with
      | some m, some dy =>
        let target := toString m ++ "월 " ++ toString dy ++ "일"
        match posts.find? (fun p => containsS target p.post_title) with
        | none => .ok none
        | some post =>
          match env.readPost post with
          | .error e => .error e
          | .ok contents =>
            if contents = "" then .ok none
            else
              let songs := parseKbsBoardSongs (htmlToLines contents)
              .ok (if songs.isEmpty then none else some songs)
      | _, _ => .error ()

/-- Embedding of `fetch_kbs_board_songs` (lines 127-199). -/
def fetchKbsBoardSongs (env : BoardEnv) (bbsId dateStr : String) :
    Option (List Song) :=
  pyCatch (boardBody env bbsId dateStr)

/-! ### fetch_songs (lines 337-365) -/

/-- The program dict restricted to the keys `fetch_songs` reads;
`none` models an absent key. -/
structure Program where
  source : Option String
  prog_code : Option String
  bbs_id : Option String
deriving DecidableEq

structure NetEnv where
  mbc : MbcEnv
  kbs : KbsEnv
  board : BoardEnv

/-- How a call to `fetch_songs` terminates: a normal return, the
`ValueError` of the unknown-source branch, or the `KeyError` of a
missing subscript `program[key]`. -/
inductive FetchOutcome where
  | ok : Option (List Song) → FetchOutcome
  | valueError : String → FetchOutcome
  | keyError : String → FetchOutcome
deriving DecidableEq

/-- `f"Unknown source: {source}"` renders an absent key as `None`. -/
def sourceRepr : Option String → String
  | none => "None"
  | some s => s

/-- Embedding of `fetch_songs` (lines 337-365).  The subscripts
`program["prog_code"]` / `program["bbs_id"]` are evaluated in
`fetch_songs` itself, outside any `try`, so an absent key is a raised
`KeyError`. -/
def fetchSongs (p : Program) (env : NetEnv) (dateStr : String) :
    FetchOutcome :=
  if p.source = some "mbc" then
    match p.prog_code with
    | some c => .ok (fetchMbcSongs env.mbc c dateStr)
    | none => .keyError "prog_code"
  else if p.source = some "kbs" then
    match p.prog_code with
    | some c => .ok (fetchKbsSongs env.kbs c dateStr)
    | none => .keyError "prog_code"
  else if p.source = some "kbs_board" then
    match p.bbs_id with
    | some b => .ok (fetchKbsBoardSongs env.board b dateStr)
    | none => .keyError "bbs_id"
  else .valueError ("Unknown source: " ++ sourceRepr p.source)

/-! ### Catalog resolver (src/app/spotify_client.py lines 143-217)

The Spotify client is modelled as an oracle
`sp : String → Nat → Option (List String)` mapping a query and a result
limit to the track-id list `results.get("tracks", {}).get("items", [])`
(a malformed response already collapses to `[]` through the `.get`
defaults); `none` models a raised exception, which every tier catches.
The embedding additionally records the ordered list of
`(query, limit)` search calls performed, so that "a tier is never
invoked" is a statement about the recorded trace. -/

abbrev SpOracle := String → Nat → Option (List String)

/-- Python truthiness of the extracted composer (`if composer:`). -/
def optTruthy : Option String → Bool
  | none => false
  | some s => s ≠ ""

/-- Tier 4 (lines 206-214): title-only search with limit 5. -/
def spotifyTier4 (sp : SpOracle) (ct : String)
    (acc : List (String × Nat)) : Option String × List (String × Nat) :=
  match sp ct 5 with
  | some (t :: _) => (some t, acc ++ [(ct, 5)])
  | _ => (none, acc ++ [(ct, 5)])

/-- Tier 3 (lines 194-204): composer search, only when a composer was
extracted, then falling through to tier 4. -/
def spotifyTier3 (sp : SpOracle) (ct : String) (comp : Option String)
    (acc : List (String × Nat)) : Option String × List (String × Nat) :=
  if optTruthy comp then
    let q3 := ct ++ " " ++ comp.getD ""
    match sp q3 3 with
    | some (t :: _) => (some t, acc ++ [(q3, 3)])
    | _ => spotifyTier4 sp ct (acc ++ [(q3, 3)])
  else spotifyTier4 sp ct acc

/-- Embedding of `search_spotify_track` (lines 143-217), instrumented
with the performed search calls. -/
def searchSpotifyTrackT (sp : SpOracle) (title artist : String) :
    Option String × List (String × Nat) :=
  let ct := (cleanTitle title).1
  let comp := (cleanTitle title).2
  let ca := if artist = "" then "" else cleanArtistName artist
  if ca ≠ "" then
    let q1 := "track:" ++ ct ++ " artist:" ++ ca
    match sp q1 3 with
    | some (t :: _) => (some t, [(q1, 3)])
    | _ =>
      let q2 := ct ++ " " ++ ca
      match sp q2 3 with
      | some (t :: _) => (some t, [(q1, 3), (q2, 3)])
      | _ => spotifyTier3 sp ct comp [(q1, 3), (q2, 3)]
  else spotifyTier3 sp ct comp []

/-- The track id `search_spotify_track` returns. -/
def searchSpotifyTrack (sp : SpOracle) (title artist : String) :
    Option String :=
  (searchSpotifyTrackT sp title artist).1

/-! ### Plain titles and stage-identity lemmas (for claim C4)

A cleaned title made of Latin letters, ASCII digits and single
separating spaces triggers none of the transforms of `clean_title`, so
re-cleaning it is the identity.  (The general idempotence claim fails;
see the counterexample below.) -/

/-- Latin letter, ASCII digit, or the space character. -/
def plainChar (c : Char) : Bool :=
  isLatinC c || isDigitC c || c.toNat = 32

/-- No two consecutive spaces. -/
def noDoubleSpace : List Char → Bool
  | c :: d :: rest =>
    !(c.toNat = 32 && d.toNat = 32) && noDoubleSpace (d :: rest)
  | _ => true

def headNotSpace (l : List Char) : Bool :=
  match l with
  | [] => true
  | c :: _ => c.toNat ≠ 32

/-- A "plain" title: only Latin letters, digits and single interior
spaces. -/
def plainTitle (l : List Char) : Bool :=
  l.all plainChar && noDoubleSpace l && headNotSpace l &&
    headNotSpace l.reverse

theorem plain_ne_special {c d : Char} (h : plainChar c = true)
    (hd : plainChar d = false) : c ≠ d := by
  intro he
  rw [he, hd] at h
  cases h

theorem subAux_id_of_all {m : List Char → Option Nat} {repl : List Char}
    (P : Char → Bool)
    (hm : ∀ c r, (∀ x ∈ c :: r, P x = true) → m (c :: r) = none) :
    ∀ l : List Char, (∀ x ∈ l, P x = true) → subAux m repl l = l := by
  intro l hl
  induction l with
  | nil => rfl
  | cons c rest ih =>
    show subGo m repl 0 (c :: rest) = c :: rest
    rw [subGo, hm c rest hl]
    have := ih (fun x hx => hl x (List.mem_cons_of_mem c hx))
    exact congrArg (c :: ·) this

theorem cutAux_id_of_all {t : List Char → Bool} (P : Char → Bool)
    (hm : ∀ c r, (∀ x ∈ c :: r, P x = true) → t (c :: r) = false) :
    ∀ l : List Char, (∀ x ∈ l, P x = true) → cutAux t l = l := by
  intro l hl
  induction l with
  | nil => rfl
  | cons c rest ih =>
    rw [cutAux, hm c rest hl]
    simp only [Bool.false_eq_true, if_false]
    exact congrArg (c :: ·) (ih (fun x hx => hl x (List.mem_cons_of_mem c hx)))

theorem plain_range {c : Char} (h : plainChar c = true) :
    (65 ≤ c.toNat ∧ c.toNat ≤ 90) ∨ (97 ≤ c.toNat ∧ c.toNat ≤ 122) ∨
    (48 ≤ c.toNat ∧ c.toNat ≤ 57) ∨ c.toNat = 32 := by
  simp only [plainChar, isLatinC, isDigitC, Bool.or_eq_true,
    Bool.and_eq_true, decide_eq_true_eq] at h
  omega

theorem plain_not_ws {c : Char} (h : plainChar c = true)
    (hs : c.toNat ≠ 32) : isPyWs c = false := by
  have hr := plain_range h
  simp only [isPyWs, Bool.or_eq_false_iff, decide_eq_false_iff_not]
  omega

theorem plain_dropWhile_ws {l : List Char}
    (hl : ∀ x ∈ l, plainChar x = true) :
    ∃ l2 : List Char, l.dropWhile isPyWs = l2 ∧
      (∀ x ∈ l2, plainChar x = true) ∧ headNotSpace l2 = true := by
  induction l with
  | nil => exact ⟨[], rfl, by simp, rfl⟩
  | cons c rest ih =>
    by_cases hc : c.toNat = 32
    · have hw : isPyWs c = true := by
        simp only [isPyWs, hc]; rfl
      rw [List.dropWhile_cons_of_pos hw]
      exact ih (fun x hx => hl x (List.mem_cons_of_mem c hx))
    · have hw : isPyWs c = false :=
        plain_not_ws (hl c (List.mem_cons_self c rest)) hc
      rw [List.dropWhile_cons_of_neg (by simp [hw])]
      exact ⟨c :: rest, rfl, hl, by simp [headNotSpace, hc]⟩

theorem plainTitle_all {l : List Char} (h : plainTitle l = true) :
    ∀ x ∈ l, plainChar x = true := by
  simp only [plainTitle, Bool.and_eq_true, List.all_eq_true] at h
  exact h.1.1.1

theorem char_eq_of_toNat {c d : Char} (h : c.toNat = d.toNat) : c = d := by
  have h1 : Char.ofNat c.toNat = Char.ofNat d.toNat := by rw [h]
  rwa [Char.ofNat_toNat, Char.ofNat_toNat] at h1

theorem plain_not_korean {c : Char} (h : plainChar c = true) :
    isKoreanC c = false := by
  have hr := plain_range h
  simp only [isKoreanC, Bool.and_eq_false_iff, decide_eq_false_iff_not]
  omega

theorem hasKoreanB_false_of_plain {l : List Char}
    (hl : ∀ x ∈ l, plainChar x = true) : hasKoreanB l = false := by
  simp only [hasKoreanB, List.any_eq_false]
  intro x hx
  simp [plain_not_korean (hl x hx)]

theorem isPre_false_head {p c : Char} {ps cs : List Char} (h : p ≠ c) :
    isPre (p :: ps) (c :: cs) = false := by
  simp [isPre, h]

/-- On a list of plain characters `strPre pat` fails for every pattern
whose first character is not plain. -/
theorem strPre_none_of_plain {pat : String} {l : List Char}
    (hl : ∀ x ∈ l, plainChar x = true) (hne : pat.data ≠ [])
    (hp : plainChar (pat.data.headD (Char.ofNat 32)) = false) :
    strPre pat l = none := by
  unfold strPre
  cases hpd : pat.data with
  | nil => exact absurd hpd hne
  | cons p ps =>
    rw [hpd] at hp
    simp only [List.headD_cons] at hp
    cases l with
    | nil => rfl
    | cons c cs =>
      rw [isPre_false_head
        (fun he => plain_ne_special (hl c (List.mem_cons_self c cs)) hp he.symm)]
      rfl

theorem bracketReqM_none_of_plain {l : List Char}
    (hl : ∀ x ∈ l, plainChar x = true) : bracketReqM l = none := by
  cases l with
  | nil => rfl
  | cons c rest =>
    have hc : c ≠ lbrackC :=
      plain_ne_special (hl c (List.mem_cons_self c rest)) (by decide)
    simp [bracketReqM, hc]

theorem plusT_false_of_plain {l : List Char}
    (hl : ∀ x ∈ l, plainChar x = true) : plusT l = false := by
  obtain ⟨l2, hdrop, hall, -⟩ := plain_dropWhile_ws hl
  unfold plusT
  rw [hdrop]
  match l2, hall with
  | [], _ => rfl
  | [c], _ => rfl
  | c :: d :: r, hall =>
    have hc : c ≠ plusC :=
      plain_ne_special (hall c (List.mem_cons_self c _)) (by decide)
    simp [hc]

theorem ampNumT_false_of_plain {l : List Char}
    (hl : ∀ x ∈ l, plainChar x = true) : ampNumT l = false := by
  obtain ⟨l2, hdrop, hall, -⟩ := plain_dropWhile_ws hl
  unfold ampNumT
  rw [hdrop]
  match l2, hall with
  | [], _ => rfl
  | c :: r, hall =>
    have hc : c ≠ ampC :=
      plain_ne_special (hall c (List.mem_cons_self c _)) (by decide)
    simp [hc]

theorem ostMatch_none_of_plain {l : List Char}
    (hl : ∀ x ∈ l, plainChar x = true) : ostMatch l = none := by
  have h1 : strPre "영화" l = none :=
    strPre_none_of_plain hl (by decide) (by decide)
  simp [ostMatch, h1]

theorem composerSplit_none_of_plain {l : List Char}
    (hl : ∀ x ∈ l, plainChar x = true) : composerSplit l = none := by
  cases l with
  | nil => rfl
  | cons c rest =>
    unfold composerSplit
    by_cases hc : isLatinC c = true
    · simp only [hc, if_true]
      cases hdrop : (c :: rest).drop (1 + (rest.takeWhile isCompClassC).length) with
      | nil => rfl
      | cons d rest2 =>
        have hd : d ∈ c :: rest := by
          have := List.drop_subset
            (l := c :: rest) (1 + (rest.takeWhile isCompClassC).length)
          exact this (hdrop ▸ List.mem_cons_self d rest2)
        have hds : d ≠ slashC := plain_ne_special (hl d hd) (by decide)
        simp [hds]
    · simp only [Bool.not_eq_true] at hc
      simp [hc]

theorem movementM_none_of_plain {l : List Char}
    (hl : ∀ x ∈ l, plainChar x = true) : movementM l = none := by
  have hsub : ∀ x ∈ l.drop (l.takeWhile isPyWs).length, plainChar x = true :=
    fun x hx => hl x (List.drop_subset _ _ hx)
  have h1 : strPre "중" (l.drop (l.takeWhile isPyWs).length) = none :=
    strPre_none_of_plain hsub (by decide) (by decide)
  simp [movementM, h1]

theorem parenKorM_none_of_plain {l : List Char}
    (hl : ∀ x ∈ l, plainChar x = true) : parenKorM l = none := by
  cases l with
  | nil => rfl
  | cons c rest =>
    have hc : c ≠ lparenC :=
      plain_ne_special (hl c (List.mem_cons_self c rest)) (by decide)
    simp [parenKorM, hc]

theorem noDoubleSpace_tail {c : Char} {rest : List Char}
    (h : noDoubleSpace (c :: rest) = true) : noDoubleSpace rest = true := by
  cases rest with
  | nil => rfl
  | cons d r =>
    simp only [noDoubleSpace, Bool.and_eq_true] at h
    exact h.2

/-- Collapsing whitespace runs is the identity on a plain list without
double spaces. -/
theorem subWs_id_of_plain :
    ∀ l : List Char, (∀ x ∈ l, plainChar x = true) →
      noDoubleSpace l = true →
      subAux wsRunM [Char.ofNat 32] l = l := by
  intro l hl hnd
  induction l with
  | nil => rfl
  | cons c rest ih =>
    have ihr : subGo wsRunM [Char.ofNat 32] 0 rest = rest :=
      ih (fun x hx => hl x (List.mem_cons_of_mem c hx))
        (noDoubleSpace_tail hnd)
    show subGo wsRunM [Char.ofNat 32] 0 (c :: rest) = c :: rest
    by_cases hc : c.toNat = 32
    · have hw : isPyWs c = true := by simp [isPyWs, hc]
      have hrest : rest.takeWhile isPyWs = [] := by
        cases rest with
        | nil => rfl
        | cons d r =>
          have hd32 : d.toNat ≠ 32 := by
            intro hd
            have hfalse : noDoubleSpace (c :: d :: r) = false := by
              simp [noDoubleSpace, hc, hd]
            rw [hfalse] at hnd
            cases hnd
          have : isPyWs d = false :=
            plain_not_ws (hl d (List.mem_cons_of_mem c (List.mem_cons_self d r)))
              hd32
          simp [List.takeWhile_cons, this]
      have hm : wsRunM (c :: rest) = some 0 := by
        simp [wsRunM, hw, hrest]
      have hceq : c = Char.ofNat 32 := char_eq_of_toNat (by simpa using hc)
      calc subGo wsRunM [Char.ofNat 32] 0 (c :: rest)
          = [Char.ofNat 32] ++ subGo wsRunM [Char.ofNat 32] 0 rest := by
            rw [show subGo wsRunM [Char.ofNat 32] 0 (c :: rest) =
              (match wsRunM (c :: rest) with
               | some k => [Char.ofNat 32] ++ subGo wsRunM [Char.ofNat 32] k rest
               | none => c :: subGo wsRunM [Char.ofNat 32] 0 rest) from rfl, hm]
        _ = c :: rest := by rw [ihr]; simp [hceq]
    · have hw : isPyWs c = false :=
        plain_not_ws (hl c (List.mem_cons_self c rest)) hc
      have hm : wsRunM (c :: rest) = none := by simp [wsRunM, hw]
      rw [show subGo wsRunM [Char.ofNat 32] 0 (c :: rest) =
        (match wsRunM (c :: rest) with
         | some k => [Char.ofNat 32] ++ subGo wsRunM [Char.ofNat 32] k rest
         | none => c :: subGo wsRunM [Char.ofNat 32] 0 rest) from rfl, hm]
      rw [ihr]

theorem dropWhile_id_of_head {p : Char → Bool} {l : List Char}
    (h : match l with
      | [] => True
      | c :: _ => p c = false) : l.dropWhile p = l := by
  cases l with
  | nil => rfl
  | cons c rest => simp_all [List.dropWhile_cons]

theorem plain_not_edge {c : Char} (h : plainChar c = true)
    (hs : c.toNat ≠ 32) : isEdgeClassC c = false := by
  have h1 : isPyWs c = false := plain_not_ws h hs
  have h2 : c ≠ commaC := plain_ne_special h (by decide)
  have h3 : c ≠ ampC := plain_ne_special h (by decide)
  simp [isEdgeClassC, h1, h2, h3]

theorem plainTitle_parts {l : List Char} (h : plainTitle l = true) :
    (∀ x ∈ l, plainChar x = true) ∧ noDoubleSpace l = true ∧
    headNotSpace l = true ∧ headNotSpace l.reverse = true := by
  simp only [plainTitle, Bool.and_eq_true, List.all_eq_true] at h
  exact ⟨h.1.1.1, h.1.1.2, h.1.2, h.2⟩

theorem dropWhile_ws_id_plain {l : List Char}
    (hall : ∀ x ∈ l, plainChar x = true) (hh : headNotSpace l = true) :
    l.dropWhile isPyWs = l := by
  cases l with
  | nil => rfl
  | cons c rest =>
    have hc : c.toNat ≠ 32 := by
      simp only [headNotSpace, decide_eq_true_eq] at hh
      exact hh
    have hw : isPyWs c = false :=
      plain_not_ws (hall c (List.mem_cons_self c rest)) hc
    simp [List.dropWhile_cons, hw]

theorem pyStrip_id_plain {l : List Char} (hp : plainTitle l = true) :
    pyStrip l = l := by
  obtain ⟨hall, -, hh, hhr⟩ := plainTitle_parts hp
  have hallr : ∀ x ∈ l.reverse, plainChar x = true := by
    intro x hx
    exact hall x (List.mem_reverse.mp hx)
  unfold pyStrip
  rw [dropWhile_ws_id_plain hall hh, dropWhile_ws_id_plain hallr hhr,
    List.reverse_reverse]

theorem dropWhile_edge_id_plain {l : List Char}
    (hall : ∀ x ∈ l, plainChar x = true) (hh : headNotSpace l = true) :
    l.dropWhile isEdgeClassC = l := by
  cases l with
  | nil => rfl
  | cons c rest =>
    have hc : c.toNat ≠ 32 := by
      simp only [headNotSpace, decide_eq_true_eq] at hh
      exact hh
    have hw : isEdgeClassC c = false :=
      plain_not_edge (hall c (List.mem_cons_self c rest)) hc
    simp [List.dropWhile_cons, hw]

theorem edgeStrip_id_plain {l : List Char} (hp : plainTitle l = true) :
    edgeStrip l = l := by
  obtain ⟨hall, -, hh, hhr⟩ := plainTitle_parts hp
  have hallr : ∀ x ∈ l.reverse, plainChar x = true := by
    intro x hx
    exact hall x (List.mem_reverse.mp hx)
  unfold edgeStrip
  rw [dropWhile_edge_id_plain hall hh, dropWhile_edge_id_plain hallr hhr,
    List.reverse_reverse]

theorem string_mk_data (s : String) : String.mk s.data = s := rfl

/-- Re-cleaning a plain title is the identity on both components. -/
theorem cleanTitle_plain_fixpoint {t : String}
    (hp : plainTitle t.data = true) : cleanTitle t = (t, none) := by
  obtain ⟨hall, hnd, -, -⟩ := plainTitle_parts hp
  have h1 : subAux bracketReqM [] t.data = t.data :=
    subAux_id_of_all plainChar
      (fun c r hcr => bracketReqM_none_of_plain hcr) _ hall
  have h2 : cutAux plusT t.data = t.data :=
    cutAux_id_of_all plainChar
      (fun c r hcr => plusT_false_of_plain hcr) _ hall
  have hps : pyStrip t.data = t.data := pyStrip_id_plain hp
  have h3 : cutAux ampNumT t.data = t.data :=
    cutAux_id_of_all plainChar
      (fun c r hcr => ampNumT_false_of_plain hcr) _ hall
  have h4 : ostMatch t.data = none := ostMatch_none_of_plain hall
  have h5 : composerSplit t.data = none := composerSplit_none_of_plain hall
  have h6 : subAux movementM [Char.ofNat 32] t.data = t.data :=
    subAux_id_of_all plainChar
      (fun c r hcr => movementM_none_of_plain hcr) _ hall
  have h7 : hasKoreanB t.data = false := hasKoreanB_false_of_plain hall
  have h8 : subAux parenKorM [] t.data = t.data :=
    subAux_id_of_all plainChar
      (fun c r hcr => parenKorM_none_of_plain hcr) _ hall
  have h9 : subAux wsRunM [Char.ofNat 32] t.data = t.data :=
    subWs_id_of_plain _ hall hnd
  have h10 : edgeStrip t.data = t.data := edgeStrip_id_plain hp
  unfold cleanTitle
  simp only [h1, h2, hps, h3, h4, h5, h6, h7, h8, h9, h10,
    Bool.false_and, Bool.false_eq_true, if_false, string_mk_data]
  rfl

/-- Claim C1 (evaluation at the failing input): on
`["2. Nocturne 3'14 pf: Pianist Z"]` the board parser returns the title
with the instrument marker still embedded and an empty artist, because
`inst_re` is anchored with `^` and therefore `inst_re.search` can only
match at the start of the title text, where `Nocturne` does not carry
the marker.  The claim (and the spec example) expects
`[{title: "Nocturne", artist: "Pianist Z"}]`. -/
theorem board_inline_marker_eval :
    parseKbsBoardSongs ["2. Nocturne 3'14 pf: Pianist Z"] =
      [⟨"Nocturne  pf: Pianist Z", ""⟩] ∧
    parseKbsBoardSongs ["2. Nocturne 3'14 pf: Pianist Z"] ≠
      [⟨"Nocturne", "Pianist Z"⟩] := by
  constructor
  · decide
  · decide

/-- Claim C6: the block-separated, multi-line-title case.  The parser
finds the last pure-duration line, walks back to the artist line,
prepends the earlier block line to the title and strips the `vn:`
marker from the artist. -/
theorem board_multiline_title_eval :
    parseKbsBoardSongs
        ["5. Title Part1", "Title Part2", "vn: Violinist Y",
         "3'14 / 3'29"] =
      [⟨"Title Part1 Title Part2", "Violinist Y"⟩] := by
  decide

/-- Claim C7: the composer split extracts the leading Latin run before
the slash, and the Korean remainder with a parenthetical Western run
resolves to the Western run. -/
theorem clean_title_composer_western_eval :
    cleanTitle "Kreisler / 비엔나풍의 작은 행진곡 (Marche Miniature Viennoise)" =
      ("Marche Miniature Viennoise", some "Kreisler") := by
  decide

/-- Claim C4, counterexample: `clean_title` is not idempotent on its
title component.  Cleaning `"Ab / Cd / Ef"` yields the title
`"Cd / Ef"`, and re-cleaning that title fires the composer split again,
yielding `"Ef"`. -/
theorem clean_title_idem_counterexample :
    cleanTitle "Ab / Cd / Ef" = ("Cd / Ef", some "Ab") ∧
    (cleanTitle "Cd / Ef").1 ≠ "Cd / Ef" := by
  constructor
  · decide
  · decide

/-- Claim C4, amended: re-cleaning an already-cleaned title yields the
identical string provided the cleaned title consists only of Latin
letters, ASCII digits and single interior spaces.  (Unrestricted
idempotence fails: a cleaned title can itself still match a transform,
e.g. the composer split, as the counterexample shows.) -/
theorem clean_title_idem_plain (s t : String) (c : Option String)
    (h : cleanTitle s = (t, c)) (hp : plainTitle t.data = true) :
    (cleanTitle t).1 = t := by
  rw [cleanTitle_plain_fixpoint hp]

/-- Witness for the amended claim C4 at the concrete cleaned pair
produced from `"Hello World"`. -/
theorem clean_title_idem_plain_witness :
    cleanTitle "Hello World" = ("Hello World", none) ∧
    (cleanTitle "Hello World").1 = "Hello World" :=
  ⟨by decide,
   clean_title_idem_plain "Hello World" "Hello World" none (by decide)
     (by decide)⟩

/-- Claim C2: the resolver tries its tiers in strict order and stops at
the first tier returning a non-empty track list.  In particular, if
Tier 1 (the field-qualified query, attempted whenever the cleaned
artist is non-empty) returns a non-empty track list, the resolver
returns that tier's first track id and the recorded search trace
consists of exactly that one call — Tiers 2, 3 and 4 are never
invoked; and if Tier 1 comes back empty while Tier 2 hits, the trace is
exactly those two calls in order. -/
theorem resolver_strict_order (sp : SpOracle) (title artist : String) :
    (∀ t ts, (if artist = "" then "" else cleanArtistName artist) ≠ "" →
      sp ("track:" ++ (cleanTitle title).1 ++ " artist:" ++
          (if artist = "" then "" else cleanArtistName artist)) 3 =
        some (t :: ts) →
      searchSpotifyTrackT sp title artist =
        (some t,
         [("track:" ++ (cleanTitle title).1 ++ " artist:" ++
            (if artist = "" then "" else cleanArtistName artist), 3)])) ∧
    (∀ t ts, (if artist = "" then "" else cleanArtistName artist) ≠ "" →
      (sp ("track:" ++ (cleanTitle title).1 ++ " artist:" ++
          (if artist = "" then "" else cleanArtistName artist)) 3 =
        none ∨
       sp ("track:" ++ (cleanTitle title).1 ++ " artist:" ++
          (if artist = "" then "" else cleanArtistName artist)) 3 =
        some []) →
      sp ((cleanTitle title).1 ++ " " ++
          (if artist = "" then "" else cleanArtistName artist)) 3 =
        some (t :: ts) →
      searchSpotifyTrackT sp title artist =
        (some t,
         [("track:" ++ (cleanTitle title).1 ++ " artist:" ++
            (if artist = "" then "" else cleanArtistName artist), 3),
          ((cleanTitle title).1 ++ " " ++
            (if artist = "" then "" else cleanArtistName artist), 3)])) := by
  constructor
  · intro t ts hca h1
    unfold searchSpotifyTrackT
    simp only []
    rw [if_pos hca, h1]
  · intro t ts hca hemp h2
    unfold searchSpotifyTrackT
    simp only []
    rw [if_pos hca]
    rcases hemp with he | he <;> rw [he] <;> rw [h2]

/-- Witness oracle for claim C2. -/
def spOracleC2 : SpOracle := fun q _ =>
  if q = "track:Song artist:Band" then some ["t1"] else none

/-- Witness for claim C2 at a concrete title, artist and oracle. -/
theorem resolver_strict_order_witness :
    searchSpotifyTrackT spOracleC2 "Song" "Band" =
      (some "t1", [("track:Song artist:Band", 3)]) := by
  have h := (resolver_strict_order spOracleC2 "Song" "Band").1 "t1" []
    (by decide) (by decide)
  exact h.trans (by decide)

/-- Claim C5: when the cleaned artist is empty, Tiers 1 and 2 are
skipped entirely; when additionally no composer was extracted, Tier 3
is skipped and the recorded trace is exactly the title-only call with
limit 5; when a composer was extracted and its search yields nothing,
the trace is the composer call (limit 3) followed by the title-only
call (limit 5). -/
theorem resolver_skips (sp : SpOracle) (title artist : String) :
    ((if artist = "" then "" else cleanArtistName artist) = "" →
      optTruthy (cleanTitle title).2 = false →
      (searchSpotifyTrackT sp title artist).2 =
        [((cleanTitle title).1, 5)]) ∧
    ((if artist = "" then "" else cleanArtistName artist) = "" →
      ∀ c, (cleanTitle title).2 = some c → c ≠ "" →
      (sp ((cleanTitle title).1 ++ " " ++ c) 3 = none ∨
        sp ((cleanTitle title).1 ++ " " ++ c) 3 = some []) →
      (searchSpotifyTrackT sp title artist).2 =
        [((cleanTitle title).1 ++ " " ++ c, 3), ((cleanTitle title).1, 5)]) ∧
    (∀ ca, (if artist = "" then "" else cleanArtistName artist) = ca →
      ca ≠ "" → optTruthy (cleanTitle title).2 = false →
      (sp ("track:" ++ (cleanTitle title).1 ++ " artist:" ++ ca) 3 = none ∨
        sp ("track:" ++ (cleanTitle title).1 ++ " artist:" ++ ca) 3 =
          some []) →
      (sp ((cleanTitle title).1 ++ " " ++ ca) 3 = none ∨
        sp ((cleanTitle title).1 ++ " " ++ ca) 3 = some []) →
      (searchSpotifyTrackT sp title artist).2 =
        [("track:" ++ (cleanTitle title).1 ++ " artist:" ++ ca, 3),
         ((cleanTitle title).1 ++ " " ++ ca, 3),
         ((cleanTitle title).1, 5)]) := by
  refine ⟨?_, ?_, ?_⟩
  · intro hca hcomp
    unfold searchSpotifyTrackT
    simp only []
    rw [if_neg (by simp [hca])]
    unfold spotifyTier3
    rw [hcomp]
    simp only [Bool.false_eq_true, if_false]
    unfold spotifyTier4
    cases hsp : sp (cleanTitle title).1 5 with
    | none => rfl
    | some l =>
      cases l with
      | nil => rfl
      | cons x xs => rfl
  · intro hca c hcomp hc hempty
    unfold searchSpotifyTrackT
    simp only []
    rw [if_neg (by simp [hca])]
    unfold spotifyTier3
    rw [hcomp]
    have htr : optTruthy (some c) = true := by
      simp [optTruthy, hc]
    rw [htr]
    simp only [if_true, Option.getD_some]
    rcases hempty with he | he <;> rw [he] <;>
      · unfold spotifyTier4
        cases hsp : sp (cleanTitle title).1 5 with
        | none => rfl
        | some l =>
          cases l with
          | nil => rfl
          | cons x xs => rfl
  · intro ca hca hcane hcomp hemp1 hemp2
    unfold searchSpotifyTrackT
    simp only []
    rw [hca, if_pos hcane]
    rcases hemp1 with he1 | he1 <;> rw [he1] <;>
      rcases hemp2 with he2 | he2 <;> rw [he2] <;>
      · unfold spotifyTier3
        rw [hcomp]
        simp only [Bool.false_eq_true, if_false]
        unfold spotifyTier4
        cases hsp : sp (cleanTitle title).1 5 with
        | none => rfl
        | some l =>
          cases l with
          | nil => rfl
          | cons x xs => rfl

/-- Witness for claim C5: an empty artist with no composer records only
the limit-5 title call; an empty artist with a composer records the
composer call then the title call. -/
theorem resolver_skips_witness :
    (searchSpotifyTrackT (fun _ _ => none) "Song" "").2 = [("Song", 5)] ∧
    (searchSpotifyTrackT (fun _ _ => none) "Ab / Cd" "").2 =
      [("Cd Ab", 3), ("Cd", 5)] ∧
    (searchSpotifyTrackT (fun _ _ => none) "Song" "Band").2 =
      [("track:Song artist:Band", 3), ("Song Band", 3), ("Song", 5)] := by
  refine ⟨?_, ?_, ?_⟩
  · have h := (resolver_skips (fun _ _ => none) "Song" "").1
      (by decide) (by decide)
    exact h.trans (by decide)
  · have h := (resolver_skips (fun _ _ => none) "Ab / Cd" "").2.1
      (by decide) "Ab" (by decide) (by decide) (Or.inl rfl)
    exact h.trans (by decide)
  · have h := (resolver_skips (fun _ _ => none) "Song" "Band").2.2
      "Band" (by decide) (by decide) (by decide) (Or.inl rfl) (Or.inl rfl)
    exact h.trans (by decide)

/-- Claim C3: `fetch_songs` raises `ValueError` exactly when the source
kind is none of `mbc`, `kbs`, `kbs_board`; for each recognized kind
(with its required key present) a transport/parse failure raised inside
the adapter body is caught and becomes the `None` ("not found")
result — the adapters never propagate such an exception. -/
theorem fetch_songs_error_contract (p : Program) (env : NetEnv)
    (d : String) :
    ((∃ m, fetchSongs p env d = .valueError m) ↔
      (p.source ≠ some "mbc" ∧ p.source ≠ some "kbs" ∧
        p.source ≠ some "kbs_board")) ∧
    (∀ c e, p.source = some "mbc" → p.prog_code = some c →
      mbcBody env.mbc c d = .error e → fetchSongs p env d = .ok none) ∧
    (∀ c e, p.source = some "kbs" → p.prog_code = some c →
      env.kbs.resp c d = .error e → fetchSongs p env d = .ok none) ∧
    (∀ b e, p.source = some "kbs_board" → p.bbs_id = some b →
      boardBody env.board b d = .error e → fetchSongs p env d = .ok none) := by
  refine ⟨⟨?_, ?_⟩, ?_, ?_, ?_⟩
  · rintro ⟨m, hm⟩
    unfold fetchSongs at hm
    by_cases h1 : p.source = some "mbc"
    · rw [if_pos h1] at hm
      cases hp : p.prog_code <;> rw [hp] at hm <;> cases hm
    · by_cases h2 : p.source = some "kbs"
      · rw [if_neg h1, if_pos h2] at hm
        cases hp : p.prog_code <;> rw [hp] at hm <;> cases hm
      · by_cases h3 : p.source = some "kbs_board"
        · rw [if_neg h1, if_neg h2, if_pos h3] at hm
          cases hp : p.bbs_id <;> rw [hp] at hm <;> cases hm
        · exact ⟨h1, h2, h3⟩
  · rintro ⟨h1, h2, h3⟩
    exact ⟨"Unknown source: " ++ sourceRepr p.source, by
      unfold fetchSongs
      rw [if_neg h1, if_neg h2, if_neg h3]⟩
  · intro c e h1 hc herr
    simp [fetchSongs, h1, hc, fetchMbcSongs, herr, pyCatch]
  · intro c e h1 hc herr
    simp [fetchSongs, h1, hc, fetchKbsSongs, herr]
  · intro b e h1 hb herr
    simp [fetchSongs, h1, hb, fetchKbsBoardSongs, herr, pyCatch]

/-- An environment whose every transport call raises. -/
def netEnvErr : NetEnv :=
  ⟨⟨fun _ _ => .error (), fun _ _ => .error ()⟩,
   ⟨fun _ _ => .error ()⟩,
   ⟨fun _ => .error (), fun _ => .error ()⟩⟩

/-- Witness for claim C3: an unknown source kind yields `ValueError`,
and an `mbc` program whose page fetch raises yields `.ok none`. -/
theorem fetch_songs_error_contract_witness :
    (∃ m, fetchSongs ⟨some "rss", none, none⟩ netEnvErr "2024-02-10" =
      .valueError m) ∧
    fetchSongs ⟨some "mbc", some "FM4U", none⟩ netEnvErr "2024-02-10" =
      .ok none := by
  constructor
  · exact (fetch_songs_error_contract ⟨some "rss", none, none⟩ netEnvErr
      "2024-02-10").1.mpr ⟨by decide, by decide, by decide⟩
  · exact (fetch_songs_error_contract ⟨some "mbc", some "FM4U", none⟩
      netEnvErr "2024-02-10").2.1 "FM4U" () rfl rfl rfl

/-- Claim C10: when the source kind is recognized but the key that kind
requires is absent from the program dict, `fetch_songs` raises
`KeyError` for that key (the subscript happens in `fetch_songs` itself,
outside the adapters' catch-all), rather than returning the not-found
result. -/
theorem fetch_songs_keyerror (p : Program) (env : NetEnv) (d : String) :
    (p.source = some "mbc" → p.prog_code = none →
      fetchSongs p env d = .keyError "prog_code") ∧
    (p.source = some "kbs" → p.prog_code = none →
      fetchSongs p env d = .keyError "prog_code") ∧
    (p.source = some "kbs_board" → p.bbs_id = none →
      fetchSongs p env d = .keyError "bbs_id") := by
  refine ⟨?_, ?_, ?_⟩
  · intro h1 hk
    simp [fetchSongs, h1, hk]
  · intro h1 hk
    simp [fetchSongs, h1, hk]
  · intro h1 hk
    simp [fetchSongs, h1, hk]

/-- Witness for claim C10 at a concrete `kbs_board` program lacking
`bbs_id` and a concrete `kbs` program lacking `prog_code`. -/
theorem fetch_songs_keyerror_witness :
    fetchSongs ⟨some "kbs_board", some "R2007", none⟩ netEnvErr
        "2024-02-10" = .keyError "bbs_id" ∧
    fetchSongs ⟨some "kbs", none, some "B"⟩ netEnvErr "2024-02-10" =
      .keyError "prog_code" :=
  ⟨(fetch_songs_keyerror ⟨some "kbs_board", some "R2007", none⟩ netEnvErr
      "2024-02-10").2.2 rfl rfl,
   (fetch_songs_keyerror ⟨some "kbs", none, some "B"⟩ netEnvErr
      "2024-02-10").2.1 rfl rfl⟩

/-- "not found" or a non-empty list. -/
def nonEmptyOpt : Option (List Song) → Prop
  | none => True
  | some l => l ≠ []

theorem mbcDetailSongs_fields (rows : List (List String)) :
    ∀ s ∈ mbcDetailSongs rows, s.title ≠ "" ∧ s.artist ≠ "" := by
  intro s hs
  simp only [mbcDetailSongs, List.mem_filterMap] at hs
  obtain ⟨c, -, hc⟩ := hs
  split at hc
  · split at hc
    · rename_i hcond
      simp only [Bool.and_eq_true, decide_eq_true_eq] at hcond
      cases hc
      exact hcond
    · cases hc
  · cases hc

theorem mbcHandleRow_props (env : MbcEnv) (code : String) (r : MbcRow) :
    nonEmptyOpt (pyCatch (mbcHandleRow env code r)) ∧
    (∀ l, pyCatch (mbcHandleRow env code r) = some l →
      ∀ s ∈ l, s.title ≠ "" ∧ s.artist ≠ "") := by
  unfold mbcHandleRow
  cases r.link with
  | none => exact ⟨trivial, by intro l hl; cases hl⟩
  | some href =>
    dsimp only
    cases seqSearch href.data with
    | none => exact ⟨trivial, by intro l hl; cases hl⟩
    | some sid =>
      dsimp only
      cases hdet : env.detail code (String.mk sid) with
      | error e => exact ⟨trivial, by intro l hl; cases hl⟩
      | ok rows =>
        dsimp only
        by_cases hemp : (mbcDetailSongs rows).isEmpty = true
        · simp only [pyCatch, hemp, if_true]
          exact ⟨trivial, by intro l hl; cases hl⟩
        · simp only [pyCatch, hemp, if_false]
          constructor
          · show mbcDetailSongs rows ≠ []
            intro he
            rw [he] at hemp
            exact hemp rfl
          · intro l hl
            cases hl
            exact mbcDetailSongs_fields rows

theorem mbcScanT_fst (env : MbcEnv) (code d : String) :
    ∀ rows : List MbcRow,
      (mbcScanT env code d rows).1 = none ∨
      ∃ r, (mbcScanT env code d rows).1 = some (mbcHandleRow env code r) := by
  intro rows
  induction rows with
  | nil => exact Or.inl rfl
  | cons r rs ih =>
    by_cases hm : mbcRowMatches d r = true
    · exact Or.inr ⟨r, by simp [mbcScanT, hm]⟩
    · simp only [Bool.not_eq_true] at hm
      simpa [mbcScanT, hm] using ih

theorem mbcPagesT_props (env : MbcEnv) (code d : String) :
    ∀ ps : List Nat,
      nonEmptyOpt (pyCatch (mbcPagesT env code d ps).1) ∧
      (∀ l, pyCatch (mbcPagesT env code d ps).1 = some l →
        ∀ s ∈ l, s.title ≠ "" ∧ s.artist ≠ "") := by
  intro ps
  induction ps with
  | nil => exact ⟨trivial, by intro l hl; cases hl⟩
  | cons p ps2 ih =>
    unfold mbcPagesT
    cases hpg : env.page code p with
    | error e => exact ⟨trivial, by intro l hl; cases hl⟩
    | ok rows =>
      dsimp only
      rcases hscan : mbcScanT env code d rows with ⟨fst, snd⟩
      cases fst with
      | some res =>
        dsimp only
        rcases mbcScanT_fst env code d rows with hn | ⟨r, hr⟩
        · rw [hscan] at hn
          cases hn
        · rw [hscan] at hr
          simp only [Option.some.injEq] at hr
          subst hr
          exact mbcHandleRow_props env code r
      | none =>
        dsimp only
        exact ih

/-- Claim C9: no adapter ever returns an empty list — each of
`fetch_mbc_songs`, `fetch_kbs_songs` and `fetch_kbs_board_songs`
returns either `None` or a non-empty song list, over every transport
oracle and every input. -/
theorem adapters_never_empty (menv : MbcEnv) (kenv : KbsEnv)
    (benv : BoardEnv) (mc kc bb dm dk db : String) :
    nonEmptyOpt (fetchMbcSongs menv mc dm) ∧
    nonEmptyOpt (fetchKbsSongs kenv kc dk) ∧
    nonEmptyOpt (fetchKbsBoardSongs benv bb db) := by
  refine ⟨(mbcPagesT_props menv mc dm [1, 2, 3, 4]).1, ?_, ?_⟩
  · unfold fetchKbsSongs
    cases kenv.resp kc dk with
    | error e => trivial
    | ok items =>
      simp only []
      split
      · trivial
      · rename_i hemp
        show _ ≠ []
        intro he
        rw [he] at hemp
        exact hemp rfl
  · unfold fetchKbsBoardSongs boardBody
    cases benv.listPosts bb with
    | error e => trivial
    | ok posts =>
      simp only []
      split
      · trivial
      · split
        · split
          · trivial
          · rename_i post hfind
            cases benv.readPost post with
            | error e => trivial
            | ok contents =>
              simp only []
              split
              · trivial
              · simp only [pyCatch]
                split
                · trivial
                · rename_i hemp
                  show _ ≠ []
                  intro he
                  rw [he] at hemp
                  exact hemp rfl
        · trivial

theorem mbcScanT_no_match (env : MbcEnv) (code d : String) :
    ∀ rows : List MbcRow, (∀ x ∈ rows, mbcRowMatches d x = false) →
      mbcScanT env code d rows = (none, rows) := by
  intro rows h
  induction rows with
  | nil => rfl
  | cons r rs ih =>
    have hr : mbcRowMatches d r = false := h r (List.mem_cons_self r rs)
    have h2 := ih (fun x hx => h x (List.mem_cons_of_mem r hx))
    simp [mbcScanT, hr, h2]

theorem mbcScanT_first_match (env : MbcEnv) (code d : String) :
    ∀ (pre : List MbcRow) (r : MbcRow) (post : List MbcRow),
      (∀ x ∈ pre, mbcRowMatches d x = false) →
      mbcRowMatches d r = true →
      mbcScanT env code d (pre ++ r :: post) =
        (some (mbcHandleRow env code r), pre ++ [r]) := by
  intro pre
  induction pre with
  | nil =>
    intro r post hpre hr
    simp [mbcScanT, hr]
  | cons a pre2 ih =>
    intro r post hpre hr
    have ha : mbcRowMatches d a = false :=
      hpre a (List.mem_cons_self a pre2)
    have h2 := ih r post (fun x hx => hpre x (List.mem_cons_of_mem a hx)) hr
    simp [mbcScanT, ha, h2]

/-- Where the first satisfying element of a concatenation lives: either
inside the first list, or the first list is clean and it lives in the
second. -/
theorem first_match_split {α : Type} (P : α → Bool) :
    ∀ (l1 l2 pre post : List α) (r : α),
      l1 ++ l2 = pre ++ r :: post →
      (∀ x ∈ pre, P x = false) → P r = true →
      (∃ post1, l1 = pre ++ r :: post1) ∨
      ((∀ x ∈ l1, P x = false) ∧
        ∃ pre2, pre = l1 ++ pre2 ∧ l2 = pre2 ++ r :: post) := by
  intro l1
  induction l1 with
  | nil =>
    intro l2 pre post r heq hpre hr
    right
    refine ⟨by simp, pre, by simp, ?_⟩
    simpa using heq
  | cons a t1 ih =>
    intro l2 pre post r heq hpre hr
    cases pre with
    | nil =>
      left
      simp only [List.nil_append, List.cons_append, List.cons.injEq] at heq ⊢
      exact ⟨t1, heq.1, rfl⟩
    | cons b pre2 =>
      simp only [List.cons_append, List.cons.injEq] at heq
      obtain ⟨hab, heq2⟩ := heq
      subst hab
      have hb : P a = false := hpre a (List.mem_cons_self a pre2)
      rcases ih l2 pre2 post r heq2
        (fun x hx => hpre x (List.mem_cons_of_mem a hx)) hr with
        ⟨post1, h1⟩ | ⟨hall, pre3, hpre3, hl2⟩
      · left
        exact ⟨post1, by simp [h1]⟩
      · right
        refine ⟨?_, pre3, by simp [hpre3], hl2⟩
        intro x hx
        rcases List.mem_cons.mp hx with rfl | hx2
        · exact hb
        · exact hall x hx2

theorem mbcPagesT_first (env : MbcEnv) (code d : String) :
    ∀ (ps : List Nat) (rowsF : Nat → List MbcRow)
      (pre post : List MbcRow) (r : MbcRow),
      (∀ p ∈ ps, env.page code p = .ok (rowsF p)) →
      (ps.map rowsF).flatten = pre ++ r :: post →
      (∀ x ∈ pre, mbcRowMatches d x = false) →
      mbcRowMatches d r = true →
      mbcPagesT env code d ps = (mbcHandleRow env code r, pre ++ [r]) := by
  intro ps
  induction ps with
  | nil =>
    intro rowsF pre post r hok hjoin hpre hr
    exact absurd hjoin (by cases pre <;> simp)
  | cons p ps2 ih =>
    intro rowsF pre post r hok hjoin hpre hr
    have hpg : env.page code p = .ok (rowsF p) :=
      hok p (List.mem_cons_self p ps2)
    rw [List.map_cons, List.flatten_cons] at hjoin
    rcases first_match_split (mbcRowMatches d) (rowsF p)
      ((ps2.map rowsF).flatten) pre post r hjoin hpre hr with
      ⟨post1, h1⟩ | ⟨hall, pre2, hpre2, hl2⟩
    · unfold mbcPagesT
      rw [hpg]
      dsimp only
      rw [h1, mbcScanT_first_match env code d pre r post1 hpre hr]
    · have hpre2m : ∀ x ∈ pre2, mbcRowMatches d x = false := by
        intro x hx
        exact hpre x (by rw [hpre2]; exact List.mem_append_right _ hx)
      have hres := ih rowsF pre2 post r
        (fun q hq => hok q (List.mem_cons_of_mem p hq)) hl2 hpre2m hr
      unfold mbcPagesT
      rw [hpg]
      dsimp only
      rw [mbcScanT_no_match env code d (rowsF p) hall]
      dsimp only
      rw [hres]
      simp [hpre2, List.append_assoc]

/-- Claim C8: when the four listing pages parse successfully and the
concatenated row stream splits as `pre ++ r :: post` with no matching
row in `pre` and `r` matching the target date, `fetch_mbc_songs`
examines exactly the rows `pre ++ [r]` (rows after the first match are
never considered), the function's body is what following row `r` to its
detail page yields, and every returned song has a non-empty title and a
non-empty artist. -/
theorem mbc_first_matching_row (env : MbcEnv) (code d : String)
    (rs1 rs2 rs3 rs4 pre post : List MbcRow) (r : MbcRow)
    (h1 : env.page code 1 = .ok rs1) (h2 : env.page code 2 = .ok rs2)
    (h3 : env.page code 3 = .ok rs3) (h4 : env.page code 4 = .ok rs4)
    (hsplit : rs1 ++ rs2 ++ rs3 ++ rs4 = pre ++ r :: post)
    (hpre : ∀ x ∈ pre, mbcRowMatches d x = false)
    (hr : mbcRowMatches d r = true) :
    mbcTrace env code d = pre ++ [r] ∧
    mbcBody env code d = mbcHandleRow env code r ∧
    (∀ l, fetchMbcSongs env code d = some l →
      ∀ s ∈ l, s.title ≠ "" ∧ s.artist ≠ "") := by
  have hokF : ∀ p ∈ [1, 2, 3, 4], env.page code p =
      .ok ((fun n => if n = 1 then rs1 else if n = 2 then rs2
        else if n = 3 then rs3 else rs4) p) := by
    intro p hp
    fin_cases hp <;> simp [h1, h2, h3, h4]
  have hjoin : (([1, 2, 3, 4].map (fun n => if n = 1 then rs1
      else if n = 2 then rs2 else if n = 3 then rs3 else rs4)).flatten) =
      pre ++ r :: post := by
    simp only [List.map_cons, List.map_nil, List.flatten_cons,
      List.flatten_nil, List.append_nil]
    simp only [show (1 : Nat) = 1 from rfl, if_true]
    norm_num
    simpa [List.append_assoc] using hsplit
  have hmain := mbcPagesT_first env code d [1, 2, 3, 4] _ pre post r
    hokF hjoin hpre hr
  refine ⟨?_, ?_, ?_⟩
  · show (mbcPagesT env code d [1, 2, 3, 4]).2 = pre ++ [r]
    rw [hmain]
  · show (mbcPagesT env code d [1, 2, 3, 4]).1 = mbcHandleRow env code r
    rw [hmain]
  · exact (mbcPagesT_props env code d [1, 2, 3, 4]).2

/-- Listing rows of the C8 witness environment. -/
def rowW1 : MbcRow := ⟨["2024-02-09"], none⟩
def rowW2 : MbcRow := ⟨["2024-02-10"], some "/Music/View?seqID=77"⟩

/-- Witness environment for claim C8: page 1 carries a non-matching row
followed by the matching one, later pages are empty, and the detail
table of seqID 77 holds one complete row and one short row. -/
def mbcEnvW : MbcEnv :=
  ⟨fun _ p => if p = 1 then .ok [rowW1, rowW2] else .ok [],
   fun _ sid => if sid = "77" then
      .ok [["21:04", "Song", "Artist"], ["x"]] else .error ()⟩

/-- Witness for claim C8: the trace stops at the matching row and the
result comes from its detail page. -/
theorem mbc_first_matching_row_witness :
    mbcTrace mbcEnvW "C" "2024-02-10" = [rowW1, rowW2] ∧
    fetchMbcSongs mbcEnvW "C" "2024-02-10" = some [⟨"Song", "Artist"⟩] := by
  obtain ⟨ht, hb, -⟩ := mbc_first_matching_row mbcEnvW "C" "2024-02-10"
    [rowW1, rowW2] [] [] [] [rowW1] [] rowW2 rfl rfl rfl rfl rfl
    (by decide) (by decide)
  refine ⟨ht, ?_⟩
  show pyCatch (mbcBody mbcEnvW "C" "2024-02-10") = _
  rw [hb]
  decide

end KoreanRadio

